import Mathlib

/-!
Verification development for the sharded key-value store implemented in
`10.Sharpness_Value_using_dp.c` (the `kv_store` section of that file: the
shard router `get_shard_index`, the store operations `set_key`, `get_key`,
`delete_key`, the persistence pair `persist_to_disk` / `load_from_disk`, and
the replication hook `replicate_to_followers`).

Modelling conventions:
- C strings (`char *` keys and values) are byte lists `List Nat`; the bytes of
  a C string exclude the terminating NUL.
- `char` is signed on the target platform documented in the source (gcc on
  Linux/x86), so a byte `b` read through `char` has integer value `b` when
  `b < 128` and `b - 256` otherwise (`charVal`).
- The C `%` operator on `int` truncates toward zero, which is `Int.tmod`.
- The global `kv_shards` array is a `Store`: a list of `SHARD_COUNT` shards,
  each a list of `MAX_KEYS` entries, all zero-initialized (`initialStore`).
- `set_key` returns the new store together with the replication request it
  forwarded (`some (key, value)` exactly on the code path that calls
  `replicate_to_followers`, `none` on the fall-through path).  The exit
  status of the `system()` transport call is the `outcome` argument; the C
  code discards it, so `replicate_to_followers` ignores it as well.  The
  `persist_to_disk` call inside `set_key` writes the snapshot file and does
  not touch the in-memory store, so it does not appear in the state
  transition.
- `persist_to_disk` is modelled as the byte content it writes to the
  snapshot file; `load_from_disk` consumes such bytes the way the C loop
  `while (fscanf(file, "%s %s", key, value) != EOF) set_key(key, value);`
  does: `%s` skips whitespace and reads a maximal non-whitespace token, and
  when only one token remains before EOF, `fscanf` returns 1 (not EOF), so
  `set_key` runs with the stale contents of the `value` buffer.  The initial
  contents of the two uninitialized buffers are the `k0`/`v0` parameters.
-/

set_option maxRecDepth 1000000

namespace KVStore

/-- `#define SHARD_COUNT 3` -/
def SHARD_COUNT : Nat := 3

/-- `#define MAX_KEYS 100` (slots per shard) -/
def MAX_KEYS : Nat := 100

/-- `#define MAX_KEY_LENGTH 50` (buffer size, including the NUL terminator) -/
def MAX_KEY_LENGTH : Nat := 50

/-- `#define MAX_VALUE_LENGTH 100` (buffer size, including the NUL terminator) -/
def MAX_VALUE_LENGTH : Nat := 100

/-- One slot of a shard: `typedef struct { char key[...]; char value[...]; int is_active; } KVEntry;` -/
structure KVEntry where
  key : List Nat
  value : List Nat
  is_active : Bool
  deriving DecidableEq

/-- A shard's slot array `KVEntry store[MAX_KEYS]`. -/
abbrev Shard := List KVEntry

/-- The global `KVShard kv_shards[SHARD_COUNT]` (locks are irrelevant to the
sequential state transitions modelled here). -/
abbrev Store := List Shard

/-- A zero-initialized slot: empty key, empty value, `is_active = 0`. -/
def emptyEntry : KVEntry := ⟨[], [], false⟩

/-- The zero-initialized global store at process start. -/
def initialStore : Store := List.replicate SHARD_COUNT (List.replicate MAX_KEYS emptyEntry)

/-- Value of a byte read through (signed) `char` and promoted to `int`. -/
def charVal (b : Nat) : Int := if b < 128 then (b : Int) else (b : Int) - 256

/-- `int get_shard_index(const char *key) { int hash = 0; for (...) hash = (hash * 31 + key[i]) % SHARD_COUNT; return hash; }`
C `%` on `int` truncates toward zero (`Int.tmod`). -/
def get_shard_index (key : List Nat) : Int :=
  key.foldl (fun h b => Int.tmod (h * 31 + charVal b) (SHARD_COUNT : Int)) 0

/-- The shard array index actually used to subscript `kv_shards`.  For keys on
which `get_shard_index` is nonnegative this is the C behavior; a negative
hash makes the C code index out of bounds (see the C8 theorem). -/
def shardIdx (key : List Nat) : Nat := (get_shard_index key).toNat

/-- The shard `kv_shards[i]` (out-of-range reads, which the C code never
performs for nonnegative hashes, default to the empty shard). -/
def shardAt (st : Store) (i : Nat) : Shard := st.getD i []

/-- The scan loop of `set_key` over one shard's slots: the first slot `i` with
`!store[i].is_active || strcmp(store[i].key, key) == 0` receives the pair and
is marked active; if no slot qualifies the loop falls through (`none`). -/
def setSlots (k v : List Nat) : Shard → Option Shard
  | [] => none
  | e :: es =>
    if !e.is_active || e.key == k then some (⟨k, v, true⟩ :: es)
    else (setSlots k v es).map (fun es' => e :: es')

/-- The scan loop of `get_key`: first slot with `is_active && strcmp(key) == 0`
returns its value; otherwise `NULL`. -/
def getSlots (k : List Nat) : Shard → Option (List Nat)
  | [] => none
  | e :: es => if e.is_active && e.key == k then some e.value else getSlots k es

/-- The scan loop of `delete_key`: the first slot with
`is_active && strcmp(key) == 0` has `is_active` set to 0, then `break`. -/
def deleteSlots (k : List Nat) : Shard → Shard
  | [] => []
  | e :: es =>
    if e.is_active && e.key == k then { e with is_active := false } :: es
    else e :: deleteSlots k es

/-- Number of free (inactive) slots in a shard. -/
def countInactive (sl : Shard) : Nat := sl.countP (fun e => !e.is_active)

/-- `replicate_to_followers` builds the request forwarding `(key, value)` to
the follower and runs it via `system()`; the transport's exit status
(`outcome`) is discarded by the C code. -/
def replicate_to_followers (key value : List Nat) (outcome : Bool) : List Nat × List Nat :=
  let _ := outcome
  (key, value)

/-- `void set_key(const char *key, const char *value)`: routes to the shard,
scans (see `setSlots`), and on a successful write persists and replicates.
Result: the new store and the replication request issued (`none` when the
loop fell through without storing). -/
def set_key (key value : List Nat) (st : Store) (outcome : Bool) :
    Store × Option (List Nat × List Nat) :=
  match setSlots key value (shardAt st (shardIdx key)) with
  | some s' => (st.set (shardIdx key) s', some (replicate_to_followers key value outcome))
  | none => (st, none)

/-- `set_key` as a plain store transition (replication outcome fixed). -/
def setK (key value : List Nat) (st : Store) : Store := (set_key key value st true).1

/-- `char* get_key(const char *key)`: `none` models the `NULL` return. -/
def get_key (key : List Nat) (st : Store) : Option (List Nat) :=
  getSlots key (shardAt st (shardIdx key))

/-- `void delete_key(const char *key)`. -/
def delete_key (key : List Nat) (st : Store) : Store :=
  st.set (shardIdx key) (deleteSlots key (shardAt st (shardIdx key)))

/-! ### Persistence: snapshot serialization and reload -/

/-- One snapshot line `fprintf(file, "%s %s\n", key, value)`: key, space,
value, newline. -/
def encodeEntry (e : KVEntry) : List Nat := e.key ++ 32 :: (e.value ++ [10])

/-- `void persist_to_disk()`: for each shard in order, for each slot in order,
write the line for every active entry.  Modelled as the byte content written
to `kv_store.txt`. -/
def persist_to_disk (st : Store) : List Nat :=
  (st.map (fun sh => ((sh.filter (·.is_active)).map encodeEntry).flatten)).flatten

/-- Whitespace for `fscanf`'s `%s` conversion (C `isspace`). -/
def isWS (b : Nat) : Bool :=
  b == 32 || b == 9 || b == 10 || b == 11 || b == 12 || b == 13

/-- Token splitter underlying `%s`: skip whitespace, accumulate maximal
non-whitespace runs. `acc` is the (reversed) run currently being read. -/
def tokenizeAux : List Nat → List Nat → List (List Nat)
  | [], acc => if acc.isEmpty then [] else [acc.reverse]
  | b :: rest, acc =>
    if isWS b then
      if acc.isEmpty then tokenizeAux rest []
      else acc.reverse :: tokenizeAux rest []
    else tokenizeAux rest (b :: acc)

/-- The whitespace-separated tokens of a byte stream, in order. -/
def tokenize (l : List Nat) : List (List Nat) := tokenizeAux l []

/-- The load loop `while (fscanf(file, "%s %s", key, value) != EOF) set_key(key, value);`
consuming the token stream.  With two or more tokens left, `fscanf` fills
both buffers (returns 2) and `set_key` runs; with exactly one token left it
fills only `key` (returns 1, which is `!= EOF`), so `set_key` runs with the
previous `value` buffer contents; at EOF it returns EOF and the loop stops. -/
def loadTokens : List (List Nat) → List Nat → List Nat → Store → Store
  | [], _, _, st => st
  | [t], _, pv, st => (set_key t pv st true).1
  | t1 :: t2 :: rest, _, _, st => loadTokens rest t1 t2 (set_key t1 t2 st true).1

/-- `void load_from_disk()` applied to snapshot-file bytes.  `k0`/`v0` are the
initial contents of the two uninitialized stack buffers. -/
def load_from_disk (file : List Nat) (k0 v0 : List Nat) (st : Store) : Store :=
  loadTokens (tokenize file) k0 v0 st

/-! ### Derived notions used in the statements -/

/-- Keys on which the C code is well defined: every byte is a nonzero
(NUL terminates a C string) value that stays nonnegative as a `char`. -/
def ValidKey (k : List Nat) : Prop := ∀ b ∈ k, 0 < b ∧ b < 128

/-- A snapshot-safe C string: nonempty, printable-range bytes, no whitespace
(the `%s`/`fscanf` round trip keeps exactly these intact). -/
def TokenOk (t : List Nat) : Prop :=
  t ≠ [] ∧ ∀ b ∈ t, 0 < b ∧ b < 128 ∧ isWS b = false

instance (k : List Nat) : Decidable (ValidKey k) := by
  unfold ValidKey
  infer_instance

instance (t : List Nat) : Decidable (TokenOk t) := by
  unfold TokenOk
  infer_instance

/-- The `(key, value)` pairs of the active slots of one shard, in slot order. -/
def pairsOf (sh : Shard) : List (List Nat × List Nat) :=
  (sh.filter (·.is_active)).map (fun e => (e.key, e.value))

/-- The `(key, value)` pairs of all active slots, in snapshot order. -/
def activePairs (st : Store) : List (List Nat × List Nat) :=
  (st.map pairsOf).flatten

/-- All active entries of the store, in snapshot order. -/
def activeList (st : Store) : List KVEntry :=
  (st.map (fun sh => sh.filter (·.is_active))).flatten

/-- The token stream a well-formed snapshot parses to: key, value, key,
value, ... -/
def pairTokens : List (List Nat × List Nat) → List (List Nat)
  | [] => []
  | p :: ps => p.1 :: p.2 :: pairTokens ps

/-- Replaying a list of pairs through `set_key`, as the load loop does. -/
def replayPairs (ps : List (List Nat × List Nat)) (st : Store) : Store :=
  ps.foldl (fun s p => (set_key p.1 p.2 s true).1) st

/-- A store the persistence round trip can be asked about: the real shard
shape (`SHARD_COUNT` shards of `MAX_KEYS` slots), every active entry sitting
in the shard the router picks for its key, snapshot-safe keys and values
within the configured length limits, and globally distinct active keys. -/
def WFStore (st : Store) : Prop :=
  st.length = SHARD_COUNT ∧
  (∀ sh ∈ st, sh.length = MAX_KEYS) ∧
  (∀ s, s < SHARD_COUNT → ∀ e ∈ shardAt st s, e.is_active = true →
    shardIdx e.key = s ∧ TokenOk e.key ∧ TokenOk e.value ∧
    e.key.length < MAX_KEY_LENGTH ∧ e.value.length < MAX_VALUE_LENGTH) ∧
  ((activePairs st).map Prod.fst).Nodup

instance (st : Store) : Decidable (WFStore st) := by
  unfold WFStore
  infer_instance

/-- Frame property of one `set_key` call: every other shard is untouched and
at most one slot of the routed shard changes. -/
def SetFrame (k v : List Nat) (st : Store) (ro : Bool) : Prop :=
  (∀ j, j ≠ shardIdx k → shardAt (set_key k v st ro).1 j = shardAt st j) ∧
  (∃ i, ∀ m, m ≠ i →
    (shardAt (set_key k v st ro).1 (shardIdx k)).getD m emptyEntry =
      (shardAt st (shardIdx k)).getD m emptyEntry)

/-- Frame property of one `delete_key` call. -/
def DeleteFrame (k : List Nat) (st : Store) : Prop :=
  (∀ j, j ≠ shardIdx k → shardAt (delete_key k st) j = shardAt st j) ∧
  (∃ i, ∀ m, m ≠ i →
    (shardAt (delete_key k st) (shardIdx k)).getD m emptyEntry =
      (shardAt st (shardIdx k)).getD m emptyEntry)

/-! ### Concrete states used by the counterexample / bug-evaluation theorems.
`[97] = "a"` and `[100] = "d"` both hash to shard 1 (`97 tmod 3 = 1`,
`100 tmod 3 = 1`). -/

/-- After `set_key("a","x")` on the fresh store. -/
def kvSt1 : Store := setK [97] [120] initialStore

/-- After `set_key("a","x"); set_key("d","y")`. -/
def kvSt2 : Store := setK [100] [121] kvSt1

/-- After `set_key("a","x"); set_key("d","y"); delete_key("a")`. -/
def kvSt3 : Store := delete_key [97] kvSt2

/-- After `set_key("a","x"); set_key("d","y"); delete_key("a"); set_key("d","z")`. -/
def kvSt4 : Store := setK [100] [122] kvSt3

/-- The `n`-th of 100 distinct two-byte uppercase-ASCII keys that all hash to
shard 0 (`31 ≡ 1 (mod 3)`, so the hash is the byte sum mod 3). -/
def keyN (n : Nat) : List Nat :=
  [65 + n / 10, 65 + 3 * (n % 10) + (3 - (65 + n / 10 + 65) % 3) % 3]

/-- 100 distinct keys, all routed to shard 0. -/
def keys100 : List (List Nat) := (List.range MAX_KEYS).map keyN

/-- Shard 0 with all `MAX_KEYS` slots active, holding the 100 distinct keys. -/
def fullShard : Shard := (List.range MAX_KEYS).map (fun n => ⟨keyN n, [86], true⟩)

/-- A store whose shard 0 is completely full of active entries. -/
def fullStore : Store :=
  [fullShard, List.replicate MAX_KEYS emptyEntry, List.replicate MAX_KEYS emptyEntry]

/-- The store reached from the fresh store by 100 `set_key` calls with the
distinct keys `keys100` (fills shard 0 completely). -/
def reachedFull : Store := keys100.foldl (fun s kk => setK kk [86] s) initialStore

/-- A well-formed one-entry store used as a round-trip witness: `"a" -> "x"`
sits in shard 1 where the router puts it. -/
def wfDemoStore : Store :=
  [List.replicate MAX_KEYS emptyEntry,
   ⟨[97], [120], true⟩ :: List.replicate 99 emptyEntry,
   List.replicate MAX_KEYS emptyEntry]

/-- The store holding `"b" -> "c d"` (a value with an embedded space), as
produced by `set_key("b", "c d")` on the fresh store; `"b" = [98]` hashes to
shard 2. -/
def spaceValStore : Store := setK [98] [99, 32, 100] initialStore

/-! ### Shard-level lemmas about the scan loops -/

/-- A slot the `set_key` scan passes over is active with a different key. -/
theorem cond_false_active {e : KVEntry} {k : List Nat}
    (hc : ¬((!e.is_active || e.key == k) = true)) :
    e.is_active = true ∧ (e.key == k) = false := by
  constructor
  · by_contra hna
    simp [Bool.not_eq_true] at hna
    simp [hna] at hc
  · by_contra hk
    simp [Bool.not_eq_false] at hk
    simp [hk] at hc

/-- After a successful write of `(k, v)`, scanning for `k` finds `v`:
all slots before the written one are active with different keys. -/
theorem getSlots_after_setSlots {k v : List Nat} : ∀ {sl sl' : Shard},
    setSlots k v sl = some sl' → getSlots k sl' = some v := by
  intro sl
  induction sl with
  | nil => intro sl' h; simp [setSlots] at h
  | cons e es ih =>
    intro sl' h
    by_cases hc : (!e.is_active || e.key == k) = true
    · simp [setSlots, hc] at h
      subst h
      simp [getSlots]
    · obtain ⟨hact, hkey⟩ := cond_false_active hc
      simp [setSlots, hc, Option.map_eq_some'] at h
      rcases h with ⟨es', hes', rfl⟩
      simp [getSlots, hact, hkey]
      exact ih hes'

/-- A write of key `k` does not change what any other key reads: the slot it
overwrites was either inactive or held `k`. -/
theorem getSlots_other_after_setSlots {k k' v : List Nat} (hne : k' ≠ k) : ∀ {sl sl' : Shard},
    setSlots k v sl = some sl' → getSlots k' sl' = getSlots k' sl := by
  intro sl
  induction sl with
  | nil => intro sl' h; simp [setSlots] at h
  | cons e es ih =>
    intro sl' h
    by_cases hc : (!e.is_active || e.key == k) = true
    · simp [setSlots, hc] at h
      subst h
      have hk' : (k == k') = false := by
        simp only [beq_eq_false_iff_ne, ne_eq]
        exact fun hh => hne hh.symm
      rcases Bool.or_eq_true_iff.mp hc with hna | hkk
      · have hee : e.is_active = false := by
          cases hia : e.is_active <;> simp [hia] at hna ⊢
        simp [getSlots, hk', hee]
      · have hee : e.key = k := by simpa using hkk
        have hkk' : (e.key == k') = false := by
          simp [hee, beq_eq_false_iff_ne]
          exact fun hh => hne hh.symm
        simp [getSlots, hk', hkk']
    · obtain ⟨hact, hkey⟩ := cond_false_active hc
      simp [setSlots, hc, Option.map_eq_some'] at h
      rcases h with ⟨es', hes', rfl⟩
      simp only [getSlots]
      by_cases hh : (e.is_active && e.key == k') = true
      · simp [hh]
      · simp only [Bool.not_eq_true] at hh
        simp [hh]
        exact ih hes'

/-- If the `set_key` scan fell through, no slot is active with key `k`. -/
theorem getSlots_of_setSlots_none {k v : List Nat} : ∀ {sl : Shard},
    setSlots k v sl = none → getSlots k sl = none := by
  intro sl
  induction sl with
  | nil => intro _; simp [getSlots]
  | cons e es ih =>
    intro h
    by_cases hc : (!e.is_active || e.key == k) = true
    · simp [setSlots, hc] at h
    · obtain ⟨hact, hkey⟩ := cond_false_active hc
      simp [setSlots, hc, Option.map_eq_none'] at h
      simp [getSlots, hkey]
      exact ih h

/-- A shard with a free slot always accepts a write. -/
theorem setSlots_isSome_of_countInactive {k v : List Nat} : ∀ {sl : Shard},
    0 < countInactive sl → (setSlots k v sl).isSome := by
  intro sl
  induction sl with
  | nil => intro h; simp [countInactive] at h
  | cons e es ih =>
    intro h
    by_cases hc : (!e.is_active || e.key == k) = true
    · simp [setSlots, hc]
    · obtain ⟨hact, hkey⟩ := cond_false_active hc
      have hes : 0 < countInactive es := by
        simpa [countInactive, List.countP_cons, hact] using h
      have hsome := ih hes
      simp [setSlots, hc]
      cases heq : setSlots k v es with
      | none => simp [heq] at hsome
      | some es' => simp

/-- Writing a key that was not readable consumes exactly one free slot. -/
theorem countInactive_after_setSlots {k v : List Nat} : ∀ {sl sl' : Shard},
    setSlots k v sl = some sl' → getSlots k sl = none →
    countInactive sl' + 1 = countInactive sl := by
  intro sl
  induction sl with
  | nil => intro sl' h _; simp [setSlots] at h
  | cons e es ih =>
    intro sl' h hg
    by_cases hc : (!e.is_active || e.key == k) = true
    · simp [setSlots, hc] at h
      subst h
      have hina : e.is_active = false := by
        cases hia : e.is_active
        · rfl
        · rcases Bool.or_eq_true_iff.mp hc with h1 | h2
          · simp [hia] at h1
          · have hk : (e.key == k) = true := h2
            simp [getSlots, hia, hk] at hg
      simp [countInactive, List.countP_cons, hina]
    · obtain ⟨hact, hkey⟩ := cond_false_active hc
      simp [setSlots, hc, Option.map_eq_some'] at h
      rcases h with ⟨es', hes', rfl⟩
      have hg' : getSlots k es = none := by
        simpa [getSlots, hact, hkey] using hg
      have := ih hes' hg'
      simpa [countInactive, List.countP_cons, hact] using this

/-- A write never changes the slot count. -/
theorem length_setSlots {k v : List Nat} : ∀ {sl sl' : Shard},
    setSlots k v sl = some sl' → sl'.length = sl.length := by
  intro sl
  induction sl with
  | nil => intro sl' h; simp [setSlots] at h
  | cons e es ih =>
    intro sl' h
    by_cases hc : (!e.is_active || e.key == k) = true
    · simp [setSlots, hc] at h; subst h; simp
    · simp [setSlots, hc, Option.map_eq_some'] at h
      rcases h with ⟨es', hes', rfl⟩
      simp [ih hes']

/-- The scan falls through exactly when every slot is active with another
key. -/
theorem setSlots_none_iff {k v : List Nat} : ∀ {sl : Shard},
    setSlots k v sl = none ↔ ∀ e ∈ sl, e.is_active = true ∧ e.key ≠ k := by
  intro sl
  induction sl with
  | nil => simp [setSlots]
  | cons e es ih =>
    constructor
    · intro h
      by_cases hc : (!e.is_active || e.key == k) = true
      · simp [setSlots, hc] at h
      · obtain ⟨hact, hkey⟩ := cond_false_active hc
        simp [setSlots, hc, Option.map_eq_none'] at h
        intro e' he'
        rcases List.mem_cons.mp he' with rfl | hmem
        · exact ⟨hact, by simpa using hkey⟩
        · exact ih.mp h e' hmem
    · intro h
      have he := h e (List.mem_cons_self e es)
      have hes : setSlots k v es = none :=
        ih.mpr (fun e' he' => h e' (List.mem_cons_of_mem e he'))
      have hkey : (e.key == k) = false := by simpa using he.2
      simp [setSlots, he.1, hkey, hes]

/-- A successful write changes at most one slot. -/
theorem setSlots_frame {k v : List Nat} (d : KVEntry) : ∀ {sl sl' : Shard},
    setSlots k v sl = some sl' → ∃ i, ∀ m, m ≠ i → sl'.getD m d = sl.getD m d := by
  intro sl
  induction sl with
  | nil => intro sl' h; simp [setSlots] at h
  | cons e es ih =>
    intro sl' h
    by_cases hc : (!e.is_active || e.key == k) = true
    · simp [setSlots, hc] at h
      subst h
      refine ⟨0, fun m hm => ?_⟩
      cases m with
      | zero => exact absurd rfl hm
      | succ m' => simp [List.getD]
    · simp [setSlots, hc, Option.map_eq_some'] at h
      rcases h with ⟨es', hes', rfl⟩
      obtain ⟨i, hi⟩ := ih hes'
      refine ⟨i + 1, fun m hm => ?_⟩
      cases m with
      | zero => simp [List.getD]
      | succ m' =>
        have : m' ≠ i := fun hh => hm (by simp [hh])
        simpa [List.getD] using hi m' this

/-- A delete changes at most one slot (it `break`s after the first hit). -/
theorem deleteSlots_frame {k : List Nat} (d : KVEntry) : ∀ sl : Shard,
    ∃ i, ∀ m, m ≠ i → (deleteSlots k sl).getD m d = sl.getD m d := by
  intro sl
  induction sl with
  | nil => exact ⟨0, fun m _ => rfl⟩
  | cons e es ih =>
    by_cases hc : (e.is_active && e.key == k) = true
    · refine ⟨0, fun m hm => ?_⟩
      cases m with
      | zero => exact absurd rfl hm
      | succ m' => simp [deleteSlots, hc, List.getD]
    · obtain ⟨i, hi⟩ := ih
      refine ⟨i + 1, fun m hm => ?_⟩
      cases m with
      | zero => simp [deleteSlots, hc, List.getD]
      | succ m' =>
        have : m' ≠ i := fun hh => hm (by simp [hh])
        simpa [deleteSlots, hc, List.getD] using hi m' this

/-! ### Store-level lemmas -/

/-- `shardAt` after `List.set` at the same (in-range) position. -/
theorem shardAt_set_self {st : Store} {i : Nat} (sh : Shard) (h : i < st.length) :
    shardAt (st.set i sh) i = sh := by
  simp [shardAt, List.getD, List.getElem?_set_self', h]

/-- `shardAt` after `List.set` at a different position. -/
theorem shardAt_set_ne {st : Store} {i j : Nat} (sh : Shard) (h : i ≠ j) :
    shardAt (st.set i sh) j = shardAt st j := by
  simp [shardAt, List.getD, List.getElem?_set_ne h]

/-- Out-of-range shard reads give the empty shard. -/
theorem shardAt_of_le {st : Store} {i : Nat} (h : st.length ≤ i) : shardAt st i = [] := by
  simp [shardAt, List.getD, List.getElem?_eq_none h]

/-- If a write succeeded, the routed shard was in range (an out-of-range
`shardAt` yields the empty shard, which accepts no write). -/
theorem shardIdx_lt_of_setSlots_some {k v : List Nat} {st : Store} {s' : Shard}
    (h : setSlots k v (shardAt st (shardIdx k)) = some s') : shardIdx k < st.length := by
  by_contra hge
  push_neg at hge
  rw [shardAt_of_le hge] at h
  simp [setSlots] at h

/-- `get_key` right after a `set_key` that stored the pair returns the new
value. -/
theorem get_key_after_set_key {k v : List Nat} {st : Store} {ro : Bool}
    (h : (setSlots k v (shardAt st (shardIdx k))).isSome) :
    get_key k (set_key k v st ro).1 = some v := by
  cases heq : setSlots k v (shardAt st (shardIdx k)) with
  | none => rw [heq] at h; simp at h
  | some s' =>
    have hlt := shardIdx_lt_of_setSlots_some heq
    simp only [set_key, heq, get_key]
    rw [shardAt_set_self _ hlt]
    exact getSlots_after_setSlots heq

/-- `set_key` on one key does not change what any other key reads. -/
theorem get_key_other_after_set_key {k k' v : List Nat} {st : Store} {ro : Bool}
    (hne : k' ≠ k) : get_key k' (set_key k v st ro).1 = get_key k' st := by
  cases heq : setSlots k v (shardAt st (shardIdx k)) with
  | none => simp [set_key, heq]
  | some s' =>
    have hlt := shardIdx_lt_of_setSlots_some heq
    simp only [set_key, get_key, heq]
    by_cases hsh : shardIdx k' = shardIdx k
    · rw [hsh, shardAt_set_self _ hlt]
      exact getSlots_other_after_setSlots hne heq
    · rw [shardAt_set_ne _ (fun hh => hsh hh.symm)]

/-- `set_key` leaves the store's shard count unchanged. -/
theorem length_set_key (k v : List Nat) (st : Store) (ro : Bool) :
    (set_key k v st ro).1.length = st.length := by
  cases heq : setSlots k v (shardAt st (shardIdx k)) with
  | none => simp [set_key, heq]
  | some s' => simp [set_key, heq]

/-! ### Snapshot serialization lemmas -/

/-- The snapshot bytes are the concatenated encodings of all active entries. -/
theorem persist_to_disk_eq_activeList : ∀ st : Store,
    persist_to_disk st = ((activeList st).map encodeEntry).flatten := by
  intro st
  induction st with
  | nil => rfl
  | cons sh st' ih =>
    simp only [persist_to_disk, activeList, List.map_cons, List.flatten_cons,
      List.map_append, List.flatten_append] at ih ⊢
    rw [ih]

/-- The active pairs are the key/value projections of the active entries. -/
theorem activePairs_eq_activeList : ∀ st : Store,
    activePairs st = (activeList st).map (fun e => (e.key, e.value)) := by
  intro st
  induction st with
  | nil => rfl
  | cons sh st' ih =>
    simp only [activePairs, activeList, pairsOf, List.map_cons, List.flatten_cons,
      List.map_append] at ih ⊢
    rw [ih]

/-- Reading a whitespace-free chunk accumulates it onto the current token. -/
theorem tokenizeAux_chunk : ∀ (t : List Nat), (∀ b ∈ t, isWS b = false) →
    ∀ (l acc : List Nat), tokenizeAux (t ++ l) acc = tokenizeAux l (t.reverse ++ acc) := by
  intro t
  induction t with
  | nil => intro _ l acc; simp
  | cons c t' ih =>
    intro h l acc
    have hc : isWS c = false := h c (List.mem_cons_self c t')
    have h' : ∀ b ∈ t', isWS b = false := fun b hb => h b (List.mem_cons_of_mem c hb)
    rw [List.cons_append]
    rw [show tokenizeAux (c :: (t' ++ l)) acc = tokenizeAux (t' ++ l) (c :: acc) by
      simp [tokenizeAux, hc]]
    rw [ih h' l (c :: acc)]
    simp [List.append_assoc]

/-- A whitespace byte flushes the token being read. -/
theorem tokenizeAux_flush {w : Nat} (hw : isWS w = true) (l acc : List Nat) :
    tokenizeAux (w :: l) acc =
      if acc.isEmpty then tokenizeAux l [] else acc.reverse :: tokenizeAux l [] := by
  simp [tokenizeAux, hw]

/-- A snapshot-safe token followed by a whitespace separator parses off as one
token. -/
theorem tokenize_token_cons {t : List Nat} (ht : TokenOk t) {w : Nat} (hw : isWS w = true)
    (rest : List Nat) : tokenize (t ++ w :: rest) = t :: tokenize rest := by
  have hnws : ∀ b ∈ t, isWS b = false := fun b hb => (ht.2 b hb).2.2
  simp only [tokenize]
  rw [tokenizeAux_chunk t hnws (w :: rest) [], tokenizeAux_flush hw]
  have hne : t.reverse ≠ [] := by
    simp only [ne_eq, List.reverse_eq_nil_iff]
    exact ht.1
  simp [List.isEmpty_iff, hne]

/-- A well-formed snapshot tokenizes to the alternating key/value stream of
its entries. -/
theorem tokenize_encoded : ∀ (es : List KVEntry),
    (∀ e ∈ es, TokenOk e.key ∧ TokenOk e.value) →
    tokenize ((es.map encodeEntry).flatten) = pairTokens (es.map (fun e => (e.key, e.value))) := by
  intro es
  induction es with
  | nil => intro _; rfl
  | cons e es' ih =>
    intro h
    have he := h e (List.mem_cons_self e es')
    have h' : ∀ x ∈ es', TokenOk x.key ∧ TokenOk x.value :=
      fun x hx => h x (List.mem_cons_of_mem e hx)
    simp only [List.map_cons, List.flatten_cons, pairTokens]
    have hsh : encodeEntry e ++ (es'.map encodeEntry).flatten =
        e.key ++ 32 :: (e.value ++ 10 :: (es'.map encodeEntry).flatten) := by
      simp [encodeEntry, List.append_assoc]
    rw [hsh, tokenize_token_cons he.1 (by decide),
      tokenize_token_cons he.2 (by decide), ih h']

/-- The load loop over an even key/value token stream is exactly the replay of
the pairs through `set_key` (the uninitialized buffers are never consumed). -/
theorem loadTokens_pairTokens : ∀ (ps : List (List Nat × List Nat)) (k0 v0 : List Nat)
    (st : Store), loadTokens (pairTokens ps) k0 v0 st = replayPairs ps st := by
  intro ps
  induction ps with
  | nil => intro k0 v0 st; rfl
  | cons p ps' ih =>
    intro k0 v0 st
    rw [show pairTokens (p :: ps') = p.1 :: p.2 :: pairTokens ps' from rfl]
    rw [show loadTokens (p.1 :: p.2 :: pairTokens ps') k0 v0 st
        = loadTokens (pairTokens ps') p.1 p.2 (set_key p.1 p.2 st true).1 from rfl]
    rw [ih p.1 p.2]
    rfl

/-! ### Replay lemmas -/

/-- Replaying pairs whose keys all differ from `k` does not change what `k`
reads. -/
theorem get_key_replay_other : ∀ (ps : List (List Nat × List Nat)) (st : Store) (k : List Nat),
    (∀ p ∈ ps, p.1 ≠ k) → get_key k (replayPairs ps st) = get_key k st := by
  intro ps
  induction ps with
  | nil => intro st k _; rfl
  | cons p ps' ih =>
    intro st k h
    have hp : p.1 ≠ k := h p (List.mem_cons_self p ps')
    have h' : ∀ q ∈ ps', q.1 ≠ k := fun q hq => h q (List.mem_cons_of_mem p hq)
    simp only [replayPairs, List.foldl_cons]
    rw [show (List.foldl (fun s q => (set_key q.1 q.2 s true).1) (set_key p.1 p.2 st true).1 ps')
        = replayPairs ps' (set_key p.1 p.2 st true).1 from rfl]
    rw [ih _ k h']
    exact get_key_other_after_set_key (fun hh => hp hh.symm)

/-- Replaying pairs with distinct fresh keys into a store with enough free
slots per shard makes every pair readable. -/
theorem replay_reads_back : ∀ (ps : List (List Nat × List Nat)) (st : Store),
    (ps.map Prod.fst).Nodup →
    (∀ p ∈ ps, get_key p.1 st = none) →
    (∀ s, ps.countP (fun p => shardIdx p.1 == s) ≤ countInactive (shardAt st s)) →
    ∀ p ∈ ps, get_key p.1 (replayPairs ps st) = some p.2 := by
  intro ps
  induction ps with
  | nil => intro st _ _ _ p hp; simp at hp
  | cons q ps' ih =>
    intro st hnd hfresh hcount p hp
    have hq : get_key q.1 st = none := hfresh q (List.mem_cons_self q ps')
    have hqout : q.1 ∉ ps'.map Prod.fst := (List.nodup_cons.mp (by simpa using hnd)).1
    have hnd' : (ps'.map Prod.fst).Nodup := (List.nodup_cons.mp (by simpa using hnd)).2
    have hkeyne : ∀ r ∈ ps', r.1 ≠ q.1 := by
      intro r hr hrq
      exact hqout (hrq ▸ List.mem_map_of_mem Prod.fst hr)
    -- the head write lands: its shard has a free slot
    have hcq : 0 < countInactive (shardAt st (shardIdx q.1)) := by
      have hcnt := hcount (shardIdx q.1)
      have : (q :: ps').countP (fun p => shardIdx p.1 == shardIdx q.1)
          = ps'.countP (fun p => shardIdx p.1 == shardIdx q.1) + 1 := by
        simp [List.countP_cons]
      omega
    have hsome : (setSlots q.1 q.2 (shardAt st (shardIdx q.1))).isSome :=
      setSlots_isSome_of_countInactive hcq
    obtain ⟨s', heq⟩ := Option.isSome_iff_exists.mp hsome
    have hlt := shardIdx_lt_of_setSlots_some heq
    have hst' : (set_key q.1 q.2 st true).1 = st.set (shardIdx q.1) s' := by
      simp [set_key, heq]
    have hrepl : replayPairs (q :: ps') st = replayPairs ps' (set_key q.1 q.2 st true).1 := rfl
    rcases List.mem_cons.mp hp with rfl | hmem
    · rw [hrepl, get_key_replay_other ps' _ p.1 hkeyne]
      exact get_key_after_set_key (by rw [heq]; rfl)
    · rw [hrepl]
      refine ih (set_key q.1 q.2 st true).1 hnd' ?_ ?_ p hmem
      · intro r hr
        rw [get_key_other_after_set_key (hkeyne r hr)]
        exact hfresh r (List.mem_cons_of_mem q hr)
      · intro s
        by_cases hs : s = shardIdx q.1
        · subst hs
          rw [hst', shardAt_set_self _ hlt]
          have hdec : countInactive s' + 1 = countInactive (shardAt st (shardIdx q.1)) :=
            countInactive_after_setSlots heq hq
          have hcnt := hcount (shardIdx q.1)
          have : (q :: ps').countP (fun p => shardIdx p.1 == shardIdx q.1)
              = ps'.countP (fun p => shardIdx p.1 == shardIdx q.1) + 1 := by
            simp [List.countP_cons]
          omega
        · rw [hst', shardAt_set_ne _ (fun hh => hs hh.symm)]
          have hcnt := hcount s
          have : ps'.countP (fun p => shardIdx p.1 == s)
              ≤ (q :: ps').countP (fun p => shardIdx p.1 == s) := by
            rw [List.countP_cons]
            exact Nat.le_add_right _ _
          omega

/-- A shard with no active slot answers no query. -/
theorem getSlots_all_inactive {k : List Nat} : ∀ {sl : Shard},
    (∀ e ∈ sl, e.is_active = false) → getSlots k sl = none := by
  intro sl
  induction sl with
  | nil => intro _; rfl
  | cons e es ih =>
    intro h
    have he : e.is_active = false := h e (List.mem_cons_self e es)
    simp [getSlots, he]
    exact ih (fun e' he' => h e' (List.mem_cons_of_mem e he'))

/-- Every slot of the fresh store is inactive. -/
theorem shardAt_initialStore_all_inactive (i : Nat) :
    ∀ e ∈ shardAt initialStore i, e.is_active = false := by
  intro e he
  by_cases h3 : i < 3
  · have hrep : shardAt initialStore i = List.replicate MAX_KEYS emptyEntry := by
      interval_cases i <;> rfl
    rw [hrep] at he
    rw [List.eq_of_mem_replicate he]
    rfl
  · rw [shardAt_of_le (by simpa [initialStore] using h3)] at he
    simp at he

/-- The fresh store answers no query. -/
theorem get_key_initialStore (k : List Nat) : get_key k initialStore = none :=
  getSlots_all_inactive (shardAt_initialStore_all_inactive _)

/-- Every shard of the fresh store has all `MAX_KEYS` slots free. -/
theorem countInactive_initial (i : Nat) (h : i < SHARD_COUNT) :
    countInactive (shardAt initialStore i) = MAX_KEYS := by
  have h3 : i < 3 := h
  interval_cases i <;> decide

/-- Counting pairs routed to `s` in a block that routes entirely to `i`. -/
theorem countP_route (l : List (List Nat × List Nat)) (i : Nat)
    (h : ∀ p ∈ l, shardIdx p.1 = i) (s : Nat) :
    l.countP (fun p => shardIdx p.1 == s) = if i = s then l.length else 0 := by
  by_cases his : i = s
  · subst his
    rw [if_pos rfl]
    exact List.countP_eq_length.mpr (fun p hp => by simp [h p hp])
  · rw [if_neg his]
    exact List.countP_eq_zero.mpr (fun p hp => by simp [h p hp, his])

/-! ### Claim theorems -/

/-- C1: in the state reached by `set a; set d; delete a; set d`, shard 1
holds TWO active entries whose key is `"d"`: the second `set_key("d", ...)`
claimed the tombstone slot left by `delete_key("a")` (its scan condition
`!is_active || strcmp(...) == 0` accepts an inactive slot before it ever
reaches the active matching slot), so the per-shard uniqueness invariant
claimed by the spec is violated by the code. -/
theorem set_key_creates_duplicate_active_entry :
    (shardAt kvSt4 1).countP (fun e => e.is_active && e.key == [100]) = 2 := by decide

/-- C2: before the final `set_key("d","z")`, shard 1 contains an active entry
with key `"d"` and value `"y"` (slot 1).  The claim says `set` overwrites that
slot's value.  Instead the code writes the pair into slot 0 (the tombstone
left by `delete_key("a")`) and leaves the active matching slot 1 untouched,
still holding `"y"`. -/
theorem set_key_skips_active_matching_slot :
    getSlots [100] (shardAt kvSt3 1) = some [121] ∧
    (shardAt kvSt4 1).getD 1 emptyEntry = ⟨[100], [121], true⟩ ∧
    (shardAt kvSt4 1).getD 0 emptyEntry = ⟨[100], [122], true⟩ := by decide

/-- C3 (amended): the persistence cycle round trip.  For a store of the real
shape whose active entries carry distinct snapshot-safe keys (nonempty,
whitespace-free, within the length limits) and snapshot-safe values, each
sitting in its routed shard, serializing with `persist_to_disk` and replaying
the file through `set_key` into the fresh store restores every entry:
`get_key` returns the stored value for each key. -/
theorem roundtrip_restores_token_entries (st : Store) (hwf : WFStore st) (k0 v0 : List Nat) :
    ∀ p ∈ activePairs st,
      get_key p.1 (load_from_disk (persist_to_disk st) k0 v0 initialStore) = some p.2 := by
  obtain ⟨hlen, hshlen, hroute, hnd⟩ := hwf
  obtain ⟨a, b, c, rfl⟩ := List.length_eq_three.mp hlen
  have hroute0 : ∀ e ∈ a, e.is_active = true →
      shardIdx e.key = 0 ∧ TokenOk e.key ∧ TokenOk e.value ∧
      e.key.length < MAX_KEY_LENGTH ∧ e.value.length < MAX_VALUE_LENGTH := by
    intro e he hact
    exact hroute 0 (by norm_num [SHARD_COUNT]) e
      (by rw [show shardAt [a, b, c] 0 = a from rfl]; exact he) hact
  have hroute1 : ∀ e ∈ b, e.is_active = true →
      shardIdx e.key = 1 ∧ TokenOk e.key ∧ TokenOk e.value ∧
      e.key.length < MAX_KEY_LENGTH ∧ e.value.length < MAX_VALUE_LENGTH := by
    intro e he hact
    exact hroute 1 (by norm_num [SHARD_COUNT]) e
      (by rw [show shardAt [a, b, c] 1 = b from rfl]; exact he) hact
  have hroute2 : ∀ e ∈ c, e.is_active = true →
      shardIdx e.key = 2 ∧ TokenOk e.key ∧ TokenOk e.value ∧
      e.key.length < MAX_KEY_LENGTH ∧ e.value.length < MAX_VALUE_LENGTH := by
    intro e he hact
    exact hroute 2 (by norm_num [SHARD_COUNT]) e
      (by rw [show shardAt [a, b, c] 2 = c from rfl]; exact he) hact
  have hAL : activeList [a, b, c]
      = a.filter (·.is_active) ++ b.filter (·.is_active) ++ c.filter (·.is_active) := by
    simp [activeList]
  have hAP : activePairs [a, b, c] = pairsOf a ++ pairsOf b ++ pairsOf c := by
    simp [activePairs]
  have hra : ∀ p ∈ pairsOf a, shardIdx p.1 = 0 := by
    intro p hp
    obtain ⟨e, hef, rfl⟩ := List.mem_map.mp hp
    obtain ⟨hmem, hact⟩ := List.mem_filter.mp hef
    exact (hroute0 e hmem (by simpa using hact)).1
  have hrb : ∀ p ∈ pairsOf b, shardIdx p.1 = 1 := by
    intro p hp
    obtain ⟨e, hef, rfl⟩ := List.mem_map.mp hp
    obtain ⟨hmem, hact⟩ := List.mem_filter.mp hef
    exact (hroute1 e hmem (by simpa using hact)).1
  have hrc : ∀ p ∈ pairsOf c, shardIdx p.1 = 2 := by
    intro p hp
    obtain ⟨e, hef, rfl⟩ := List.mem_map.mp hp
    obtain ⟨hmem, hact⟩ := List.mem_filter.mp hef
    exact (hroute2 e hmem (by simpa using hact)).1
  have hTok : ∀ e ∈ activeList [a, b, c], TokenOk e.key ∧ TokenOk e.value := by
    intro e he
    rw [hAL] at he
    rcases List.mem_append.mp he with hab | hc
    · rcases List.mem_append.mp hab with ha | hb
      · obtain ⟨hmem, hact⟩ := List.mem_filter.mp ha
        have h := hroute0 e hmem (by simpa using hact)
        exact ⟨h.2.1, h.2.2.1⟩
      · obtain ⟨hmem, hact⟩ := List.mem_filter.mp hb
        have h := hroute1 e hmem (by simpa using hact)
        exact ⟨h.2.1, h.2.2.1⟩
    · obtain ⟨hmem, hact⟩ := List.mem_filter.mp hc
      have h := hroute2 e hmem (by simpa using hact)
      exact ⟨h.2.1, h.2.2.1⟩
  have htokfile : tokenize (persist_to_disk [a, b, c]) = pairTokens (activePairs [a, b, c]) := by
    rw [persist_to_disk_eq_activeList, tokenize_encoded _ hTok, activePairs_eq_activeList]
  have hload : load_from_disk (persist_to_disk [a, b, c]) k0 v0 initialStore
      = replayPairs (activePairs [a, b, c]) initialStore := by
    rw [load_from_disk, htokfile, loadTokens_pairTokens]
  have hla : (pairsOf a).length ≤ MAX_KEYS := by
    rw [pairsOf, List.length_map]
    calc (a.filter (·.is_active)).length ≤ a.length := List.length_filter_le _ _
      _ = MAX_KEYS := hshlen a (by simp)
  have hlb : (pairsOf b).length ≤ MAX_KEYS := by
    rw [pairsOf, List.length_map]
    calc (b.filter (·.is_active)).length ≤ b.length := List.length_filter_le _ _
      _ = MAX_KEYS := hshlen b (by simp)
  have hlc : (pairsOf c).length ≤ MAX_KEYS := by
    rw [pairsOf, List.length_map]
    calc (c.filter (·.is_active)).length ≤ c.length := List.length_filter_le _ _
      _ = MAX_KEYS := hshlen c (by simp)
  intro p hp
  rw [hload]
  refine replay_reads_back (activePairs [a, b, c]) initialStore hnd ?_ ?_ p hp
  · intro q _
    exact get_key_initialStore q.1
  · intro s
    have hca := countP_route (pairsOf a) 0 hra s
    have hcb := countP_route (pairsOf b) 1 hrb s
    have hcc := countP_route (pairsOf c) 2 hrc s
    rw [hAP, List.countP_append, List.countP_append, hca, hcb, hcc]
    by_cases hs0 : s = 0
    · subst hs0
      rw [countInactive_initial 0 (by norm_num [SHARD_COUNT])]
      simpa using hla
    · by_cases hs1 : s = 1
      · subst hs1
        rw [countInactive_initial 1 (by norm_num [SHARD_COUNT])]
        simpa using hlb
      · by_cases hs2 : s = 2
        · subst hs2
          rw [countInactive_initial 2 (by norm_num [SHARD_COUNT])]
          simpa using hlc
        · rw [if_neg (fun h => hs0 h.symm), if_neg (fun h => hs1 h.symm),
            if_neg (fun h => hs2 h.symm)]
          simp

/-- Witness for `roundtrip_restores_token_entries` on the one-entry store
`"a" -> "x"` (shard 1). -/
theorem roundtrip_restores_token_entries_witness :
    WFStore wfDemoStore ∧
    ∀ p ∈ activePairs wfDemoStore,
      get_key p.1 (load_from_disk (persist_to_disk wfDemoStore) [] [] initialStore) = some p.2 :=
  ⟨by decide, roundtrip_restores_token_entries wfDemoStore (by decide) [] []⟩

/-- C3 (counterexample): the round trip loses values containing whitespace.
Storing the single in-limit pair `"b" -> "c d"` (value `[99, 32, 100]`, one
embedded space), persisting and reloading yields `get("b") = "c"`: the
snapshot line `b c d` tokenizes into three tokens, so the loader stores
`("b","c")` and then — because `fscanf` returns 1, not EOF, on the dangling
token — also `("d","c")` from the stale value buffer. -/
theorem roundtrip_loses_value_with_space :
    get_key [98] spaceValStore = some [99, 32, 100] ∧
    get_key [98] (load_from_disk (persist_to_disk spaceValStore) [] [] initialStore)
      = some [99] ∧
    get_key [100] (load_from_disk (persist_to_disk spaceValStore) [] [] initialStore)
      = some [99] := by decide

/-- C4 (counterexample): on a store whose shard 0 is full of active entries,
none matching the fresh key `"!"` = `[33]` (routed to shard 0), `set_key`
returns leaving the store unchanged and issuing no replication — and the pair
is simply gone (`get_key` misses).  The C function returns `void`; no
`CapacityExceeded` (nor any other) error is reported to the caller: the data
is silently dropped. -/
theorem set_key_capacity_silently_drops :
    (∀ e ∈ shardAt fullStore (shardIdx [33]), e.is_active = true ∧ e.key ≠ [33]) ∧
    set_key [33] [87] fullStore true = (fullStore, none) ∧
    get_key [33] (set_key [33] [87] fullStore true).1 = none := by decide

/-- C4 (amended): when the routed shard is entirely active with other keys,
`set_key` is a no-op that reports nothing: the store is returned unchanged,
no replication request is issued, and every previously stored key still reads
the same value. -/
theorem set_key_full_shard_noop (k v : List Nat) (st : Store) (ro : Bool)
    (hfull : ∀ e ∈ shardAt st (shardIdx k), e.is_active = true ∧ e.key ≠ k) :
    set_key k v st ro = (st, none) ∧
    ∀ kq, get_key kq (set_key k v st ro).1 = get_key kq st := by
  have hnone : setSlots k v (shardAt st (shardIdx k)) = none := setSlots_none_iff.mpr hfull
  constructor
  · simp [set_key, hnone]
  · intro kq
    simp [set_key, hnone]

/-- Witness for `set_key_full_shard_noop` at a concrete full shard. -/
theorem set_key_full_shard_noop_witness :
    (∀ e ∈ shardAt fullStore (shardIdx [33]), e.is_active = true ∧ e.key ≠ [33]) ∧
    (set_key [33] [88] fullStore true = (fullStore, none) ∧
     ∀ kq, get_key kq (set_key [33] [88] fullStore true).1 = get_key kq fullStore) :=
  ⟨by decide, set_key_full_shard_noop [33] [88] fullStore true (by decide)⟩

/-- C5: `set_key` performs no length validation.  A 50-byte key (the limit is
`MAX_KEY_LENGTH` = 50 bytes of buffer, i.e. at most 49 characters plus NUL)
is stored like any other — the shard is mutated and `get_key` returns the
value — instead of being rejected before any mutation.  In the C code the
`strcpy` writes past the end of the 50-byte `key` buffer. -/
theorem set_key_accepts_oversized_key :
    MAX_KEY_LENGTH ≤ (List.replicate 50 65).length ∧
    get_key (List.replicate 50 65) (setK (List.replicate 50 65) [66] initialStore) = some [66] ∧
    setK (List.replicate 50 65) [66] initialStore ≠ initialStore := by decide

/-- C6 (amended): `set_key(k, v)` immediately followed by `get_key(k)`
returns `v`, provided the routed shard accepts the write (it has a free slot
or already holds `k`); the claim fails only when the shard is full of other
keys, see the counterexample. -/
theorem get_after_set_returns_value (k v : List Nat) (st : Store) (ro : Bool)
    (h : (setSlots k v (shardAt st (shardIdx k))).isSome) :
    get_key k (set_key k v st ro).1 = some v :=
  get_key_after_set_key h

/-- Witness for `get_after_set_returns_value` on the fresh store. -/
theorem get_after_set_returns_value_witness :
    (setSlots [97] [120] (shardAt initialStore (shardIdx [97]))).isSome = true ∧
    get_key [97] (set_key [97] [120] initialStore true).1 = some [120] :=
  ⟨by decide, get_after_set_returns_value [97] [120] initialStore true (by decide)⟩

/-- C6 (counterexample): `reachedFull` is reachable from the fresh store by
100 honest `set_key` calls (distinct in-limit keys, all routed to shard 0).
In that state, `set_key("!", "W")` with the in-limit key `"!" = [33]` (also
shard 0) stores nothing, and the immediate `get_key` does not return the
value just set. -/
theorem get_after_set_fails_on_full_shard :
    ([33].length < MAX_KEY_LENGTH ∧ [87].length < MAX_VALUE_LENGTH) ∧
    get_key [33] (setK [33] [87] reachedFull) ≠ some [87] := by decide

/-- C7: in the duplicate state `kvSt4` (reachable by
`set a; set d; delete a; set d`), `delete_key("d")` tombstones only the first
matching slot and `break`s, so the following `get_key("d")` still finds the
stale second copy and returns `"y"` instead of NotFound. -/
theorem delete_then_get_returns_stale_value :
    get_key [100] (delete_key [100] kvSt4) = some [121] := by decide

/-- C8: the router is not confined to `[0, SHARD_COUNT)`.  The one-byte key
`0x80` is negative as a (signed) `char`, and C `%` truncates toward zero, so
`get_shard_index` returns `-2` and the callers index `kv_shards[-2]`, out of
bounds.  (Determinism, the other half of the claim, does hold: the function
is pure.) -/
theorem get_shard_index_negative_on_high_byte :
    get_shard_index [128] = -2 ∧ ¬(0 ≤ get_shard_index [128]) := by decide

/-- C9: the replication hook is handed exactly the pair being stored, exactly
when the write lands (storing succeeded iff the immediate `get` reads the
value back), and the transport outcome (`ro` vs `ro'`) changes neither the
resulting store nor anything else `set_key` produces. -/
theorem replication_fires_iff_stored (k v : List Nat) (st : Store) (ro ro' : Bool) :
    set_key k v st ro = set_key k v st ro' ∧
    ((set_key k v st ro).2 = some (k, v) ↔ get_key k (set_key k v st ro).1 = some v) := by
  refine ⟨rfl, ?_⟩
  cases heq : setSlots k v (shardAt st (shardIdx k)) with
  | some s' =>
    constructor
    · intro _
      exact get_key_after_set_key (by rw [heq]; rfl)
    · intro _
      simp [set_key, heq, replicate_to_followers]
  | none =>
    constructor
    · intro h
      simp [set_key, heq] at h
    · intro h
      have hg : getSlots k (shardAt st (shardIdx k)) = none := getSlots_of_setSlots_none heq
      simp [set_key, heq, get_key, hg] at h

/-- C10: a `set_key` call touches no shard other than the one the router
selects for its key, and within that shard at most one slot; likewise for
`delete_key`. -/
theorem set_delete_touch_single_slot (k v : List Nat) (st : Store) (ro : Bool)
    (_hk : ValidKey k) : SetFrame k v st ro ∧ DeleteFrame k st := by
  constructor
  · constructor
    · intro j hj
      cases heq : setSlots k v (shardAt st (shardIdx k)) with
      | none => simp [set_key, heq]
      | some s' =>
        simp only [set_key, heq]
        exact shardAt_set_ne _ (fun hh => hj hh.symm)
    · cases heq : setSlots k v (shardAt st (shardIdx k)) with
      | none =>
        refine ⟨0, fun m _ => ?_⟩
        simp [set_key, heq]
      | some s' =>
        have hlt := shardIdx_lt_of_setSlots_some heq
        simp only [set_key, heq]
        rw [shardAt_set_self _ hlt]
        exact setSlots_frame emptyEntry heq
  · constructor
    · intro j hj
      simp only [delete_key]
      exact shardAt_set_ne _ (fun hh => hj hh.symm)
    · by_cases hlt : shardIdx k < st.length
      · simp only [delete_key]
        rw [shardAt_set_self _ hlt]
        exact deleteSlots_frame emptyEntry _
      · push_neg at hlt
        have : delete_key k st = st := by
          simp only [delete_key]
          exact List.set_eq_of_length_le hlt
        rw [this]
        exact ⟨0, fun m _ => rfl⟩

/-- Witness for `set_delete_touch_single_slot` on the fresh store. -/
theorem set_delete_touch_single_slot_witness :
    ValidKey [97] ∧ (SetFrame [97] [120] initialStore true ∧ DeleteFrame [97] initialStore) :=
  ⟨by decide, set_delete_touch_single_slot [97] [120] initialStore true (by decide)⟩

end KVStore
